import Mathlib

/-
  Verification development for the indicator and decision engine of a
  crypto signal bot (src/index.js).  Prices are modelled as real numbers,
  JS `null` as `Option.none`, and the JS substring test `String.includes`
  as an executable search over character lists.
-/

open Classical

namespace AnaBot

/-- True when `needle` is an initial segment of `hay` (character lists). -/
def hasPrefixList : List Char → List Char → Bool
  | _, [] => true
  | [], _ :: _ => false
  | c :: cs, d :: ds => c == d && hasPrefixList cs ds

/-- JS `hay.includes(needle)` over character lists. -/
def containsList (needle : List Char) : List Char → Bool
  | [] => hasPrefixList [] needle
  | c :: cs => hasPrefixList (c :: cs) needle || containsList needle cs

/-- JS `hay.includes(needle)` on strings. -/
def jsIncludes (hay needle : String) : Bool :=
  containsList needle.toList hay.toList

/-- `signals.filter(signal => signal.includes('BULLISH') || signal.includes('OVERSOLD')).length` -/
def bullishCount (signals : List String) : ℕ :=
  (signals.filter (fun s => jsIncludes s "BULLISH" || jsIncludes s "OVERSOLD")).length

/-- `signals.filter(signal => signal.includes('BEARISH') || signal.includes('OVERBOUGHT')).length` -/
def bearishCount (signals : List String) : ℕ :=
  (signals.filter (fun s => jsIncludes s "BEARISH" || jsIncludes s "OVERBOUGHT")).length

/-- `TechnicalIndicators.calculateMA`: arithmetic mean of the last `period` prices,
`null` when the series is shorter than `period`. -/
noncomputable def calculateMA (prices : List ℝ) (period : ℕ) : Option ℝ :=
  if prices.length < period then none
  else some (((prices.drop (prices.length - period)).foldl (fun acc price => acc + price) 0)
    / (period : ℝ))

/-- `TechnicalIndicators.calculateEMA`: seeded at `prices[0]`, the smoothing
recurrence runs over the whole series. -/
noncomputable def calculateEMA (prices : List ℝ) (period : ℕ) : Option ℝ :=
  if prices.length < period then none
  else
    let k : ℝ := 2 / ((period : ℝ) + 1)
    some (prices.tail.foldl (fun ema price => price * k + ema * (1 - k)) (prices.headD 0))

/-- The gains/losses accumulation loop of `calculateRSI`: step `n + 1` processes
the delta `prices[n+1] - prices[n]`, adding nonnegative deltas to gains and
subtracting negative deltas from losses. -/
noncomputable def rsiGainsLosses (prices : List ℝ) : ℕ → ℝ × ℝ
  | 0 => (0, 0)
  | n + 1 =>
    let prev := rsiGainsLosses prices n
    let change := prices.getD (n + 1) 0 - prices.getD n 0
    if 0 ≤ change then (prev.1 + change, prev.2) else (prev.1, prev.2 - change)

/-- `TechnicalIndicators.calculateRSI`. -/
noncomputable def calculateRSI (prices : List ℝ) (period : ℕ) : Option ℝ :=
  if prices.length < period + 1 then none
  else
    let gl := rsiGainsLosses prices period
    let avgGain := gl.1 / (period : ℝ)
    let avgLoss := gl.2 / (period : ℝ)
    if avgLoss = 0 then some 100
    else some (100 - 100 / (1 + avgGain / avgLoss))

/-- Result record of `calculateMACD`; the signal line and histogram are always
`null` in the source. -/
structure MACDResult where
  macd : ℝ
  signal : Option ℝ
  histogram : Option ℝ

/-- `TechnicalIndicators.calculateMACD` (the `signalPeriod` argument is unused
by the source just as in the code). -/
noncomputable def calculateMACD (prices : List ℝ) (fast slow signalPeriod : ℕ) : Option MACDResult :=
  if prices.length < slow then none
  else some { macd := (calculateEMA prices fast).getD 0 - (calculateEMA prices slow).getD 0,
              signal := none, histogram := none }

/-- Bollinger band triple returned by `calculateBollingerBands`. -/
structure BollingerBands where
  upper : ℝ
  middle : ℝ
  lower : ℝ

/-- `TechnicalIndicators.calculateBollingerBands`: middle band is the `period`
moving average, the band offset is `stdDev` times the population standard
deviation of the last `period` prices. -/
noncomputable def calculateBollingerBands (prices : List ℝ) (period : ℕ) (stdDev : ℝ) :
    Option BollingerBands :=
  if prices.length < period then none
  else
    let ma := (calculateMA prices period).getD 0
    let sumSquaredDiffs :=
      (prices.drop (prices.length - period)).foldl (fun acc price => acc + (price - ma) ^ 2) 0
    let std := Real.sqrt (sumSquaredDiffs / (period : ℝ))
    some { upper := ma + stdDev * std, middle := ma, lower := ma - stdDev * std }

/-- Swing kind produced by `SMCAnalysis.findSwings`. -/
inductive SwingType
  | high
  | low
deriving DecidableEq

/-- A swing entry `{type, index, price}` of `findSwings`. -/
structure Swing where
  type : SwingType
  index : ℕ
  price : ℝ

/-- The body of the `findSwings` scan at index `i`: a high swing when every
other value of the symmetric window is strictly below `prices[i]`, else a low
swing when every other value is strictly above, else nothing. -/
noncomputable def swingCandidate (prices : List ℝ) (windowSize i : ℕ) : Option Swing :=
  let currentPrice := prices.getD i 0
  if ∀ j, i - windowSize ≤ j → j ≤ i + windowSize → j ≠ i → prices.getD j 0 < currentPrice then
    some { type := SwingType.high, index := i, price := currentPrice }
  else if ∀ j, i - windowSize ≤ j → j ≤ i + windowSize → j ≠ i →
      currentPrice < prices.getD j 0 then
    some { type := SwingType.low, index := i, price := currentPrice }
  else none

/-- `SMCAnalysis.findSwings`: scan indices from `windowSize` to
`prices.length - windowSize - 1` in ascending order. -/
noncomputable def findSwings (prices : List ℝ) (windowSize : ℕ) : List Swing :=
  (List.range' windowSize (prices.length - windowSize - windowSize)).filterMap
    (swingCandidate prices windowSize)

/-- The indicator block attached to an analysis record. -/
structure IndicatorSet where
  ma20 : Option ℝ
  ma50 : Option ℝ
  rsi : Option ℝ
  ema12 : Option ℝ
  ema26 : Option ℝ
  bb : Option BollingerBands
  macd : Option MACDResult

/-- The full analysis record produced by `DecisionEngine.analyzeSymbol`. -/
structure Analysis where
  symbol : String
  timeframe : String
  currentPrice : ℝ
  decision : String
  confidence : String
  signals : List String
  indicators : IndicatorSet

/-- Outcome of `analyzeSymbol`: either the short-data record
`{symbol, timeframe, decision: 'INSUFFICIENT_DATA', reason}` or a full analysis. -/
inductive AnalysisResult
  | insufficientData (symbol timeframe reason : String)
  | analysis (a : Analysis)

/-- JS truthiness of a nullable number: `null` and `0` are falsy. -/
def numTruthy (x : Option ℝ) : Prop :=
  ∃ v, x = some v ∧ v ≠ 0

/-- JS numeric coercion used by relational operators: `null` reads as `0`. -/
noncomputable def jsNum (x : Option ℝ) : ℝ := x.getD 0

/-- Trend rule group of `analyzeSymbol`: `if (ma20 && ma50)` then one trend tag. -/
noncomputable def trendSignals (ma20 ma50 : Option ℝ) : List String :=
  if numTruthy ma20 ∧ numTruthy ma50 then
    if jsNum ma20 > jsNum ma50 then ["BULLISH_TREND"] else ["BEARISH_TREND"]
  else []

/-- RSI rule group of `analyzeSymbol`. -/
noncomputable def rsiSignals : Option ℝ → List String
  | none => []
  | some r => if r < 30 then ["OVERSOLD"] else if r > 70 then ["OVERBOUGHT"] else ["NEUTRAL_RSI"]

/-- MACD rule group of `analyzeSymbol`: gated on the MACD record, but the tag
itself compares `ema12` with `ema26`. -/
noncomputable def macdSignals (macd : Option MACDResult) (ema12 ema26 : Option ℝ) : List String :=
  match macd with
  | none => []
  | some _ => if jsNum ema12 > jsNum ema26 then ["BULLISH_MACD"] else ["BEARISH_MACD"]

/-- Bollinger rule group of `analyzeSymbol`. -/
noncomputable def bbSignals (bb : Option BollingerBands) (currentPrice : ℝ) : List String :=
  match bb with
  | none => []
  | some b =>
    if currentPrice > b.upper then ["RESISTANCE_TOUCH"]
    else if currentPrice < b.lower then ["SUPPORT_TOUCH"]
    else ["WITHIN_BANDS"]

/-- The decision/confidence pair computed from the bullish and bearish signal
counts at the end of `analyzeSymbol`. -/
def decisionFor (bullishSignals bearishSignals : ℕ) : String × String :=
  if bullishSignals > bearishSignals + 1 then
    ("BUY", if bullishSignals ≥ 4 then "HIGH" else "MEDIUM")
  else if bearishSignals > bullishSignals + 1 then
    ("SELL", if bearishSignals ≥ 4 then "HIGH" else "MEDIUM")
  else ("HOLD", "LOW")

/-- The long-data branch of `analyzeSymbol`: indicators, the four signal rule
groups in source order, the signal counts and the decision rule. -/
noncomputable def fullAnalysis (symbol timeframe : String) (historicalData : List ℝ) : Analysis :=
  let currentPrice := historicalData.getD (historicalData.length - 1) 0
  let ma20 := calculateMA historicalData 20
  let ma50 := calculateMA historicalData 50
  let rsi := calculateRSI historicalData 14
  let ema12 := calculateEMA historicalData 12
  let ema26 := calculateEMA historicalData 26
  let bb := calculateBollingerBands historicalData 20 2
  let macd := calculateMACD historicalData 12 26 9
  let signals := trendSignals ma20 ma50 ++ rsiSignals rsi ++
    macdSignals macd ema12 ema26 ++ bbSignals bb currentPrice
  let dc := decisionFor (bullishCount signals) (bearishCount signals)
  { symbol := symbol, timeframe := timeframe, currentPrice := currentPrice,
    decision := dc.1, confidence := dc.2, signals := signals,
    indicators := { ma20 := ma20, ma50 := ma50, rsi := rsi, ema12 := ema12,
                    ema26 := ema26, bb := bb, macd := macd } }

/-- `DecisionEngine.analyzeSymbol` as a function of the fetched series
(`none` models a missing series). -/
noncomputable def analyzeSymbol (symbol timeframe : String) (historicalData : Option (List ℝ)) :
    AnalysisResult :=
  match historicalData with
  | none => AnalysisResult.insufficientData symbol timeframe "Not enough historical data"
  | some data =>
    if data.length < 20 then
      AnalysisResult.insufficientData symbol timeframe "Not enough historical data"
    else AnalysisResult.analysis (fullAnalysis symbol timeframe data)

/-- The `decision` field of either result shape. -/
def resultDecision : AnalysisResult → String
  | AnalysisResult.insufficientData _ _ _ => "INSUFFICIENT_DATA"
  | AnalysisResult.analysis a => a.decision

/-- The `confidence` field of a result; the short-data record has none. -/
def resultConfidence : AnalysisResult → Option String
  | AnalysisResult.insufficientData _ _ _ => none
  | AnalysisResult.analysis a => some a.confidence

/-- The `indicators` field of a result; the short-data record has none. -/
def resultIndicators : AnalysisResult → Option IndicatorSet
  | AnalysisResult.insufficientData _ _ _ => none
  | AnalysisResult.analysis a => some a.indicators

/-- `analyzeSymbol` run against a pluggable price source. -/
noncomputable def analyzeWithSource (source : String → String → Option (List ℝ))
    (symbol timeframe : String) : AnalysisResult :=
  analyzeSymbol symbol timeframe (source symbol timeframe)

/-- The high-confidence selection of `periodicAnalysis`: keep exactly the
analyses whose confidence is `HIGH`. -/
def scanAlerts (results : List AnalysisResult) : List AnalysisResult :=
  results.filter (fun r => resultConfidence r == some "HIGH")

/-- The per-symbol aggregation of the `/signals` handler: strict plurality of
BUY/SELL/HOLD counts, falling back to HOLD. -/
def aggregatedDecision (decisions : List String) : String :=
  let buyCount := (decisions.filter (fun d => d == "BUY")).length
  let sellCount := (decisions.filter (fun d => d == "SELL")).length
  let holdCount := (decisions.filter (fun d => d == "HOLD")).length
  if buyCount > sellCount ∧ buyCount > holdCount then "BUY"
  else if sellCount > buyCount ∧ sellCount > holdCount then "SELL"
  else "HOLD"

/-- The valid-timeframe count of the `/signals` handler:
`decisions.filter(d => d !== 'INSUFFICIENT_DATA').length`. -/
def validCount (decisions : List String) : ℕ :=
  (decisions.filter (fun d => !(d == "INSUFFICIENT_DATA"))).length

/-- Modelled from the spec (section 4.1, `exponentialMovingAverage`): the
indexed recurrence with seed `series[0]` and step
`ema_i = price_i * k + ema_(i-1) * (1 - k)`.  Stated from the specification
text for comparison with `calculateEMA`. -/
noncomputable def emaRecurrence (prices : List ℝ) (k : ℝ) : ℕ → ℝ
  | 0 => prices.headD 0
  | n + 1 => prices.getD (n + 1) 0 * k + emaRecurrence prices k n * (1 - k)

/-! ### Decision rule lemmas -/

lemma decisionFor_fst_buy (b s : ℕ) : (decisionFor b s).1 = "BUY" ↔ b > s + 1 := by
  unfold decisionFor
  by_cases h1 : b > s + 1
  · rw [if_pos h1]
    exact iff_of_true rfl h1
  · rw [if_neg h1]
    by_cases h2 : s > b + 1
    · rw [if_pos h2]
      exact iff_of_false (fun hc => absurd (show "SELL" = "BUY" from hc) (by decide)) h1
    · rw [if_neg h2]
      exact iff_of_false (fun hc => absurd (show "HOLD" = "BUY" from hc) (by decide)) h1

lemma decisionFor_fst_sell (b s : ℕ) : (decisionFor b s).1 = "SELL" ↔ s > b + 1 := by
  unfold decisionFor
  by_cases h1 : b > s + 1
  · rw [if_pos h1]
    exact iff_of_false (fun hc => absurd (show "BUY" = "SELL" from hc) (by decide)) (by omega)
  · rw [if_neg h1]
    by_cases h2 : s > b + 1
    · rw [if_pos h2]
      exact iff_of_true rfl h2
    · rw [if_neg h2]
      exact iff_of_false (fun hc => absurd (show "HOLD" = "SELL" from hc) (by decide)) h2

lemma decisionFor_fst_hold (b s : ℕ) :
    (decisionFor b s).1 = "HOLD" ↔ ¬(b > s + 1) ∧ ¬(s > b + 1) := by
  unfold decisionFor
  by_cases h1 : b > s + 1
  · rw [if_pos h1]
    exact iff_of_false (fun hc => absurd (show "BUY" = "HOLD" from hc) (by decide)) (fun h => h.1 h1)
  · rw [if_neg h1]
    by_cases h2 : s > b + 1
    · rw [if_pos h2]
      exact iff_of_false (fun hc => absurd (show "SELL" = "HOLD" from hc) (by decide)) (fun h => h.2 h2)
    · rw [if_neg h2]
      exact iff_of_true rfl ⟨h1, h2⟩

lemma decisionFor_snd_buy (b s : ℕ) (h : b > s + 1) :
    ((decisionFor b s).2 = "HIGH" ↔ 4 ≤ b) ∧ ((decisionFor b s).2 = "MEDIUM" ↔ b < 4) := by
  unfold decisionFor
  rw [if_pos h]
  by_cases h4 : b ≥ 4
  · rw [if_pos h4]
    exact ⟨iff_of_true rfl h4, iff_of_false (by decide) (by omega)⟩
  · rw [if_neg h4]
    exact ⟨iff_of_false (by decide) h4, iff_of_true rfl (by omega)⟩

lemma decisionFor_snd_sell (b s : ℕ) (h1 : ¬(b > s + 1)) (h2 : s > b + 1) :
    ((decisionFor b s).2 = "HIGH" ↔ 4 ≤ s) ∧ ((decisionFor b s).2 = "MEDIUM" ↔ s < 4) := by
  unfold decisionFor
  rw [if_neg h1, if_pos h2]
  by_cases h4 : s ≥ 4
  · rw [if_pos h4]
    exact ⟨iff_of_true rfl h4, iff_of_false (by decide) (by omega)⟩
  · rw [if_neg h4]
    exact ⟨iff_of_false (by decide) h4, iff_of_true rfl (by omega)⟩

lemma decisionFor_snd_hold (b s : ℕ) (h1 : ¬(b > s + 1)) (h2 : ¬(s > b + 1)) :
    (decisionFor b s).2 = "LOW" := by
  unfold decisionFor
  rw [if_neg h1, if_neg h2]

lemma fullAnalysis_decision (sym tf : String) (data : List ℝ) :
    (fullAnalysis sym tf data).decision =
      (decisionFor (bullishCount (fullAnalysis sym tf data).signals)
        (bearishCount (fullAnalysis sym tf data).signals)).1 := rfl

lemma fullAnalysis_confidence (sym tf : String) (data : List ℝ) :
    (fullAnalysis sym tf data).confidence =
      (decisionFor (bullishCount (fullAnalysis sym tf data).signals)
        (bearishCount (fullAnalysis sym tf data).signals)).2 := rfl

lemma analyzeSymbol_long (sym tf : String) (data : List ℝ) (h : 20 ≤ data.length) :
    analyzeSymbol sym tf (some data) = AnalysisResult.analysis (fullAnalysis sym tf data) := by
  have hrw : analyzeSymbol sym tf (some data) =
      if data.length < 20 then
        AnalysisResult.insufficientData sym tf "Not enough historical data"
      else AnalysisResult.analysis (fullAnalysis sym tf data) := rfl
  rw [hrw, if_neg (by omega)]

/-- C1: for a series of length at least 20, `analyzeSymbol` produces a full
analysis whose decision is BUY exactly when the bullish signal count exceeds
the bearish count by more than one, SELL in the mirrored case, HOLD otherwise;
on a BUY or SELL the confidence is HIGH exactly when the winning count is at
least 4 and MEDIUM otherwise, and on a HOLD the confidence is LOW. -/
theorem analyzeSymbol_decision_rule (sym tf : String) (data : List ℝ) (h : 20 ≤ data.length) :
    analyzeSymbol sym tf (some data) = AnalysisResult.analysis (fullAnalysis sym tf data) ∧
    ((fullAnalysis sym tf data).decision = "BUY" ↔
      bullishCount (fullAnalysis sym tf data).signals >
        bearishCount (fullAnalysis sym tf data).signals + 1) ∧
    ((fullAnalysis sym tf data).decision = "SELL" ↔
      bearishCount (fullAnalysis sym tf data).signals >
        bullishCount (fullAnalysis sym tf data).signals + 1) ∧
    ((fullAnalysis sym tf data).decision = "HOLD" ↔
      ¬(bullishCount (fullAnalysis sym tf data).signals >
          bearishCount (fullAnalysis sym tf data).signals + 1) ∧
      ¬(bearishCount (fullAnalysis sym tf data).signals >
          bullishCount (fullAnalysis sym tf data).signals + 1)) ∧
    ((fullAnalysis sym tf data).decision = "BUY" →
      (((fullAnalysis sym tf data).confidence = "HIGH" ↔
          4 ≤ bullishCount (fullAnalysis sym tf data).signals) ∧
        ((fullAnalysis sym tf data).confidence = "MEDIUM" ↔
          bullishCount (fullAnalysis sym tf data).signals < 4))) ∧
    ((fullAnalysis sym tf data).decision = "SELL" →
      (((fullAnalysis sym tf data).confidence = "HIGH" ↔
          4 ≤ bearishCount (fullAnalysis sym tf data).signals) ∧
        ((fullAnalysis sym tf data).confidence = "MEDIUM" ↔
          bearishCount (fullAnalysis sym tf data).signals < 4))) ∧
    ((fullAnalysis sym tf data).decision = "HOLD" →
      (fullAnalysis sym tf data).confidence = "LOW") := by
  rw [fullAnalysis_decision, fullAnalysis_confidence]
  set b := bullishCount (fullAnalysis sym tf data).signals with hb
  set s := bearishCount (fullAnalysis sym tf data).signals with hs
  refine ⟨analyzeSymbol_long sym tf data h, decisionFor_fst_buy b s, decisionFor_fst_sell b s,
    decisionFor_fst_hold b s, ?_, ?_, ?_⟩
  · intro hd
    exact decisionFor_snd_buy b s ((decisionFor_fst_buy b s).1 hd)
  · intro hd
    have hsell := (decisionFor_fst_sell b s).1 hd
    exact decisionFor_snd_sell b s (by omega) hsell
  · intro hd
    have hhold := (decisionFor_fst_hold b s).1 hd
    exact decisionFor_snd_hold b s hhold.1 hhold.2

/-- Witness for C1 at the constant series of twenty fives. -/
theorem analyzeSymbol_decision_rule_witness :
    20 ≤ (List.replicate 20 (5 : ℝ)).length ∧
    (analyzeSymbol "BTC" "1d" (some (List.replicate 20 (5 : ℝ))) =
      AnalysisResult.analysis (fullAnalysis "BTC" "1d" (List.replicate 20 (5 : ℝ)))) := by
  refine ⟨by simp, ?_⟩
  exact (analyzeSymbol_decision_rule "BTC" "1d" (List.replicate 20 (5 : ℝ)) (by simp)).1

/-! ### Signal count bounds -/

lemma bullishCount_append (a b : List String) :
    bullishCount (a ++ b) = bullishCount a + bullishCount b := by
  simp [bullishCount, List.filter_append]

lemma bearishCount_append (a b : List String) :
    bearishCount (a ++ b) = bearishCount a + bearishCount b := by
  simp [bearishCount, List.filter_append]

lemma trendSignals_counts (ma20 ma50 : Option ℝ) :
    bullishCount (trendSignals ma20 ma50) ≤ 1 ∧ bearishCount (trendSignals ma20 ma50) ≤ 1 := by
  unfold trendSignals
  split_ifs <;> exact ⟨by decide, by decide⟩

lemma rsiSignals_counts (rsi : Option ℝ) :
    bullishCount (rsiSignals rsi) ≤ 1 ∧ bearishCount (rsiSignals rsi) ≤ 1 := by
  cases rsi with
  | none => exact ⟨by decide, by decide⟩
  | some r =>
    show bullishCount
        (if r < 30 then ["OVERSOLD"] else if r > 70 then ["OVERBOUGHT"] else ["NEUTRAL_RSI"]) ≤ 1 ∧
      bearishCount
        (if r < 30 then ["OVERSOLD"] else if r > 70 then ["OVERBOUGHT"] else ["NEUTRAL_RSI"]) ≤ 1
    split_ifs <;> exact ⟨by decide, by decide⟩

lemma macdSignals_counts (macd : Option MACDResult) (ema12 ema26 : Option ℝ) :
    bullishCount (macdSignals macd ema12 ema26) ≤ 1 ∧
      bearishCount (macdSignals macd ema12 ema26) ≤ 1 := by
  cases macd with
  | none =>
    exact ⟨(by decide : bullishCount ([] : List String) ≤ 1),
      (by decide : bearishCount ([] : List String) ≤ 1)⟩
  | some m =>
    show bullishCount
        (if jsNum ema12 > jsNum ema26 then ["BULLISH_MACD"] else ["BEARISH_MACD"]) ≤ 1 ∧
      bearishCount
        (if jsNum ema12 > jsNum ema26 then ["BULLISH_MACD"] else ["BEARISH_MACD"]) ≤ 1
    split_ifs <;> exact ⟨by decide, by decide⟩

lemma bbSignals_counts (bb : Option BollingerBands) (currentPrice : ℝ) :
    bullishCount (bbSignals bb currentPrice) = 0 ∧
      bearishCount (bbSignals bb currentPrice) = 0 := by
  cases bb with
  | none =>
    exact ⟨(by decide : bullishCount ([] : List String) = 0),
      (by decide : bearishCount ([] : List String) = 0)⟩
  | some b =>
    show bullishCount
        (if currentPrice > b.upper then ["RESISTANCE_TOUCH"]
          else if currentPrice < b.lower then ["SUPPORT_TOUCH"] else ["WITHIN_BANDS"]) = 0 ∧
      bearishCount
        (if currentPrice > b.upper then ["RESISTANCE_TOUCH"]
          else if currentPrice < b.lower then ["SUPPORT_TOUCH"] else ["WITHIN_BANDS"]) = 0
    split_ifs <;> exact ⟨by decide, by decide⟩

lemma fullAnalysis_signals (sym tf : String) (data : List ℝ) :
    (fullAnalysis sym tf data).signals =
      trendSignals (calculateMA data 20) (calculateMA data 50) ++
        rsiSignals (calculateRSI data 14) ++
        macdSignals (calculateMACD data 12 26 9) (calculateEMA data 12) (calculateEMA data 26) ++
        bbSignals (calculateBollingerBands data 20 2) (data.getD (data.length - 1) 0) := rfl

lemma fullAnalysis_counts_le (sym tf : String) (data : List ℝ) :
    bullishCount (fullAnalysis sym tf data).signals ≤ 3 ∧
      bearishCount (fullAnalysis sym tf data).signals ≤ 3 := by
  rw [fullAnalysis_signals]
  rw [bullishCount_append, bullishCount_append, bullishCount_append,
    bearishCount_append, bearishCount_append, bearishCount_append]
  have ht := trendSignals_counts (calculateMA data 20) (calculateMA data 50)
  have hr := rsiSignals_counts (calculateRSI data 14)
  have hm := macdSignals_counts (calculateMACD data 12 26 9) (calculateEMA data 12)
    (calculateEMA data 26)
  have hb := bbSignals_counts (calculateBollingerBands data 20 2)
    (data.getD (data.length - 1) 0)
  omega

lemma decisionFor_snd_ne_high (b s : ℕ) (hb : b ≤ 3) (hs : s ≤ 3) :
    (decisionFor b s).2 ≠ "HIGH" := by
  unfold decisionFor
  by_cases h1 : b > s + 1
  · rw [if_pos h1, if_neg (by omega : ¬b ≥ 4)]
    decide
  · rw [if_neg h1]
    by_cases h2 : s > b + 1
    · rw [if_pos h2, if_neg (by omega : ¬s ≥ 4)]
      decide
    · rw [if_neg h2]
      decide

lemma resultConfidence_ne_high (sym tf : String) (data : Option (List ℝ)) :
    resultConfidence (analyzeSymbol sym tf data) ≠ some "HIGH" := by
  match data with
  | none => simp [analyzeSymbol, resultConfidence]
  | some l =>
    by_cases h : l.length < 20
    · have hrw : analyzeSymbol sym tf (some l) =
          AnalysisResult.insufficientData sym tf "Not enough historical data" := by
        have : analyzeSymbol sym tf (some l) =
            if l.length < 20 then
              AnalysisResult.insufficientData sym tf "Not enough historical data"
            else AnalysisResult.analysis (fullAnalysis sym tf l) := rfl
        rw [this, if_pos h]
      rw [hrw]
      simp [resultConfidence]
    · rw [analyzeSymbol_long sym tf l (by omega)]
      have hcle := fullAnalysis_counts_le sym tf l
      have hne := decisionFor_snd_ne_high (bullishCount (fullAnalysis sym tf l).signals)
        (bearishCount (fullAnalysis sym tf l).signals) hcle.1 hcle.2
      simp only [resultConfidence, ne_eq, Option.some.injEq]
      rw [fullAnalysis_confidence]
      exact hne

/-- C2: every analysis has at most three bullish-counted and three
bearish-counted tags (the Bollinger rule group never matches either counting
filter), so the confidence HIGH is never produced and the high-confidence
scan of `periodicAnalysis` selects nothing on any input. -/
theorem no_high_confidence :
    (∀ sym tf : String, ∀ data : List ℝ,
      bullishCount (fullAnalysis sym tf data).signals ≤ 3 ∧
        bearishCount (fullAnalysis sym tf data).signals ≤ 3) ∧
    (∀ bb : Option BollingerBands, ∀ p : ℝ,
      bullishCount (bbSignals bb p) = 0 ∧ bearishCount (bbSignals bb p) = 0) ∧
    (∀ sym tf : String, ∀ data : Option (List ℝ),
      resultConfidence (analyzeSymbol sym tf data) ≠ some "HIGH") ∧
    (∀ inputs : List (String × String × Option (List ℝ)),
      scanAlerts (inputs.map (fun i => analyzeSymbol i.1 i.2.1 i.2.2)) = []) := by
  refine ⟨fun sym tf data => fullAnalysis_counts_le sym tf data,
    fun bb p => bbSignals_counts bb p,
    fun sym tf data => resultConfidence_ne_high sym tf data, ?_⟩
  intro inputs
  rw [scanAlerts, List.filter_eq_nil_iff]
  intro r hr
  obtain ⟨i, _, hi⟩ := List.mem_map.1 hr
  subst hi
  have := resultConfidence_ne_high i.1 i.2.1 i.2.2
  simpa using this

/-- Witness for C2: the scan applied through the theorem at a concrete input. -/
theorem no_high_confidence_witness :
    scanAlerts [analyzeSymbol "BTC" "5m" none,
      analyzeSymbol "ETH" "1d" (some (List.replicate 20 (5 : ℝ)))] = [] := by
  have h := no_high_confidence.2.2.2
    [("BTC", "5m", none), ("ETH", "1d", some (List.replicate 20 (5 : ℝ)))]
  simpa using h

/-! ### Determinism of the pipeline -/

/-- C3: the analysis computed from a given price series is a function of the
series alone: two runs on the same fetched series agree on the whole record
(decision, confidence, signals and indicators included), and running against
two price sources that supply the same series yields the same result, so no
randomness inside a source can influence the core computation. -/
theorem analysis_deterministic :
    (∀ sym tf : String, ∀ data : Option (List ℝ), ∀ r₁ r₂ : AnalysisResult,
      analyzeSymbol sym tf data = r₁ → analyzeSymbol sym tf data = r₂ →
        r₁ = r₂ ∧ resultDecision r₁ = resultDecision r₂ ∧
          resultConfidence r₁ = resultConfidence r₂ ∧
          resultIndicators r₁ = resultIndicators r₂) ∧
    (∀ sym tf : String, ∀ data : List ℝ, ∀ a₁ a₂ : Analysis,
      analyzeSymbol sym tf (some data) = AnalysisResult.analysis a₁ →
      analyzeSymbol sym tf (some data) = AnalysisResult.analysis a₂ →
        a₁.decision = a₂.decision ∧ a₁.confidence = a₂.confidence ∧
          a₁.signals = a₂.signals ∧ a₁.indicators = a₂.indicators ∧
          a₁.currentPrice = a₂.currentPrice) ∧
    (∀ source₁ source₂ : String → String → Option (List ℝ), ∀ sym tf : String,
      source₁ sym tf = source₂ sym tf →
        analyzeWithSource source₁ sym tf = analyzeWithSource source₂ sym tf) := by
  refine ⟨?_, ?_, ?_⟩
  · intro sym tf data r₁ r₂ h₁ h₂
    subst h₁
    subst h₂
    exact ⟨rfl, rfl, rfl, rfl⟩
  · intro sym tf data a₁ a₂ h₁ h₂
    have h : a₁ = a₂ := by
      have := h₁.symm.trans h₂
      exact AnalysisResult.analysis.inj this
    subst h
    exact ⟨rfl, rfl, rfl, rfl, rfl⟩
  · intro source₁ source₂ sym tf h
    unfold analyzeWithSource
    rw [h]

/-- Witness for C3: two identical runs and two agreeing sources at a concrete
symbol, timeframe and series. -/
theorem analysis_deterministic_witness :
    (analyzeSymbol "BTC" "1d" (some [1, 2, 3]) = analyzeSymbol "BTC" "1d" (some [1, 2, 3]) ∧
      resultDecision (analyzeSymbol "BTC" "1d" (some [1, 2, 3])) =
        resultDecision (analyzeSymbol "BTC" "1d" (some [1, 2, 3]))) ∧
    analyzeWithSource (fun _ _ => some [1, 2, 3]) "BTC" "1d" =
      analyzeWithSource (fun _ _ => some [1, 2, 3]) "BTC" "1d" := by
  have h1 := analysis_deterministic.1 "BTC" "1d" (some [1, 2, 3])
    (analyzeSymbol "BTC" "1d" (some [1, 2, 3])) (analyzeSymbol "BTC" "1d" (some [1, 2, 3]))
    rfl rfl
  have h2 := analysis_deterministic.2.2 (fun _ _ => some [1, 2, 3]) (fun _ _ => some [1, 2, 3])
    "BTC" "1d" rfl
  exact ⟨⟨h1.1, h1.2.1⟩, h2⟩

/-! ### The short-data branch -/

/-- C4: when the fetched series is missing or shorter than 20 samples,
`analyzeSymbol` returns the INSUFFICIENT_DATA record carrying the instrument,
timeframe and reason, with no indicators computed; the embedding is a total
function, so no such input produces an error. -/
theorem insufficient_data_cases (sym tf : String) (data : Option (List ℝ))
    (h : data = none ∨ ∃ l : List ℝ, data = some l ∧ l.length < 20) :
    analyzeSymbol sym tf data =
      AnalysisResult.insufficientData sym tf "Not enough historical data" ∧
    resultDecision (analyzeSymbol sym tf data) = "INSUFFICIENT_DATA" ∧
    resultConfidence (analyzeSymbol sym tf data) = none ∧
    resultIndicators (analyzeSymbol sym tf data) = none := by
  have hmain : analyzeSymbol sym tf data =
      AnalysisResult.insufficientData sym tf "Not enough historical data" := by
    rcases h with h | ⟨l, hl, hlen⟩
    · subst h
      rfl
    · subst hl
      have : analyzeSymbol sym tf (some l) =
          if l.length < 20 then
            AnalysisResult.insufficientData sym tf "Not enough historical data"
          else AnalysisResult.analysis (fullAnalysis sym tf l) := rfl
      rw [this, if_pos hlen]
  rw [hmain]
  exact ⟨rfl, rfl, rfl, rfl⟩

/-- Witness for C4 at a missing series and at a length-3 series. -/
theorem insufficient_data_cases_witness :
    analyzeSymbol "BTC" "5m" none =
      AnalysisResult.insufficientData "BTC" "5m" "Not enough historical data" ∧
    analyzeSymbol "ETH" "1w" (some [1, 2, 3]) =
      AnalysisResult.insufficientData "ETH" "1w" "Not enough historical data" := by
  refine ⟨(insufficient_data_cases "BTC" "5m" none (Or.inl rfl)).1, ?_⟩
  exact (insufficient_data_cases "ETH" "1w" (some [1, 2, 3])
    (Or.inr ⟨[1, 2, 3], rfl, by simp⟩)).1

/-! ### Aggregation across timeframes -/

lemma count_eq_filter_beq (a : String) (l : List String) :
    (l.filter (fun d => d == a)).length = l.count a := by
  rw [List.count, List.countP_eq_length_filter]

/-- C5: the `/signals` aggregation is a strict-plurality vote over the
BUY/SELL/HOLD counts that falls back to HOLD on every tie, the two scenario
votes come out as claimed, and the valid count is the number of decisions
different from INSUFFICIENT_DATA. -/
theorem aggregate_majority :
    (∀ ds : List String,
      (aggregatedDecision ds = "BUY" ↔
        ds.count "BUY" > ds.count "SELL" ∧ ds.count "BUY" > ds.count "HOLD") ∧
      (aggregatedDecision ds = "SELL" ↔
        ds.count "SELL" > ds.count "BUY" ∧ ds.count "SELL" > ds.count "HOLD") ∧
      (¬(ds.count "BUY" > ds.count "SELL" ∧ ds.count "BUY" > ds.count "HOLD") →
        ¬(ds.count "SELL" > ds.count "BUY" ∧ ds.count "SELL" > ds.count "HOLD") →
          aggregatedDecision ds = "HOLD")) ∧
    aggregatedDecision ["BUY", "BUY", "HOLD"] = "BUY" ∧
    aggregatedDecision ["BUY", "SELL", "HOLD"] = "HOLD" ∧
    (∀ ds : List String, validCount ds = (ds.filter (fun d => d ≠ "INSUFFICIENT_DATA")).length) := by
  refine ⟨?_, by decide, by decide, ?_⟩
  · intro ds
    unfold aggregatedDecision
    rw [count_eq_filter_beq "BUY" ds, count_eq_filter_beq "SELL" ds,
      count_eq_filter_beq "HOLD" ds]
    set buyCount := ds.count "BUY"
    set sellCount := ds.count "SELL"
    set holdCount := ds.count "HOLD"
    by_cases h1 : buyCount > sellCount ∧ buyCount > holdCount
    · rw [if_pos h1]
      refine ⟨iff_of_true rfl h1, iff_of_false (by decide) (by omega), fun hc _ => absurd h1 hc⟩
    · rw [if_neg h1]
      by_cases h2 : sellCount > buyCount ∧ sellCount > holdCount
      · rw [if_pos h2]
        exact ⟨iff_of_false (fun hc => absurd (show "SELL" = "BUY" from hc) (by decide)) h1,
          iff_of_true rfl h2, fun _ hc => absurd h2 hc⟩
      · rw [if_neg h2]
        exact ⟨iff_of_false (fun hc => absurd (show "HOLD" = "BUY" from hc) (by decide)) h1,
          iff_of_false (fun hc => absurd (show "HOLD" = "SELL" from hc) (by decide)) h2,
          fun _ _ => rfl⟩
  · intro ds
    unfold validCount
    congr 1
    apply List.filter_congr
    intro d _
    by_cases h : d = "INSUFFICIENT_DATA" <;> simp [h]

/-- Witness for C5: the tie case applied through the theorem at a concrete
vote list. -/
theorem aggregate_majority_witness :
    aggregatedDecision ["BUY", "SELL"] = "HOLD" := by
  exact ((aggregate_majority.1 ["BUY", "SELL"]).2.2 (by decide) (by decide))

/-! ### RSI only reads the oldest window -/

lemma getD_eq_of_take_eq (l₁ l₂ : List ℝ) (n : ℕ) (h : l₁.take n = l₂.take n) :
    ∀ i, i < n → l₁.getD i 0 = l₂.getD i 0 := by
  intro i hi
  have h1 : l₁.getD i 0 = (l₁.take n).getD i 0 := by
    rw [List.getD_eq_getElem?_getD, List.getD_eq_getElem?_getD, List.getElem?_take, if_pos hi]
  have h2 : l₂.getD i 0 = (l₂.take n).getD i 0 := by
    rw [List.getD_eq_getElem?_getD, List.getD_eq_getElem?_getD, List.getElem?_take, if_pos hi]
  rw [h1, h2, h]

lemma rsiGainsLosses_congr (s₁ s₂ : List ℝ) (n : ℕ)
    (h : ∀ i, i ≤ n → s₁.getD i 0 = s₂.getD i 0) :
    rsiGainsLosses s₁ n = rsiGainsLosses s₂ n := by
  induction n with
  | zero => rfl
  | succ m ih =>
    have hrec := ih (fun i hi => h i (by omega))
    show (let prev := rsiGainsLosses s₁ m
      let change := s₁.getD (m + 1) 0 - s₁.getD m 0
      if 0 ≤ change then (prev.1 + change, prev.2) else (prev.1, prev.2 - change)) =
      (let prev := rsiGainsLosses s₂ m
        let change := s₂.getD (m + 1) 0 - s₂.getD m 0
        if 0 ≤ change then (prev.1 + change, prev.2) else (prev.1, prev.2 - change))
    rw [hrec, h (m + 1) (by omega), h m (by omega)]

/-- C6: the RSI of a series reads only its oldest `period + 1` samples: two
sufficiently long series that agree on their first `period + 1` elements get
the same RSI value, whatever their later elements are. -/
theorem rsi_depends_on_oldest (s₁ s₂ : List ℝ) (period : ℕ)
    (h₁ : period + 1 ≤ s₁.length) (h₂ : period + 1 ≤ s₂.length)
    (h : s₁.take (period + 1) = s₂.take (period + 1)) :
    calculateRSI s₁ period = calculateRSI s₂ period := by
  unfold calculateRSI
  rw [if_neg (show ¬s₁.length < period + 1 by omega),
    if_neg (show ¬s₂.length < period + 1 by omega)]
  have hgl := rsiGainsLosses_congr s₁ s₂ period
    (fun i hi => getD_eq_of_take_eq s₁ s₂ (period + 1) h i (by omega))
  rw [hgl]

/-- Witness for C6: two concrete series sharing their first three samples. -/
theorem rsi_depends_on_oldest_witness :
    2 + 1 ≤ ([1, 2, 3] : List ℝ).length ∧
    2 + 1 ≤ ([1, 2, 3, 100] : List ℝ).length ∧
    ([1, 2, 3] : List ℝ).take 3 = ([1, 2, 3, 100] : List ℝ).take 3 ∧
    calculateRSI [1, 2, 3] 2 = calculateRSI [1, 2, 3, 100] 2 := by
  refine ⟨by simp, by simp, rfl, ?_⟩
  exact rsi_depends_on_oldest [1, 2, 3] [1, 2, 3, 100] 2 (by simp) (by simp) rfl

/-! ### EMA runs over the whole history -/

lemma emaRecurrence_append (l : List ℝ) (a k : ℝ) :
    ∀ j, j < l.length → emaRecurrence (l ++ [a]) k j = emaRecurrence l k j := by
  intro j
  induction j with
  | zero =>
    intro hj
    show (l ++ [a]).headD 0 = l.headD 0
    cases l with
    | nil => exact absurd hj (by simp)
    | cons x xs => rfl
  | succ m ih =>
    intro hj
    show (l ++ [a]).getD (m + 1) 0 * k + emaRecurrence (l ++ [a]) k m * (1 - k) =
      l.getD (m + 1) 0 * k + emaRecurrence l k m * (1 - k)
    rw [List.getD_append l [a] 0 (m + 1) hj, ih (by omega)]

lemma ema_foldl_eq_recurrence (k : ℝ) (l : List ℝ) :
    l.tail.foldl (fun ema price => price * k + ema * (1 - k)) (l.headD 0) =
      emaRecurrence l k (l.length - 1) := by
  induction l using List.reverseRecOn with
  | nil => rfl
  | append_singleton l' a ih =>
    cases l' with
    | nil => rfl
    | cons x xs =>
      have htail : ((x :: xs) ++ [a]).tail = xs ++ [a] := rfl
      have hhead : ((x :: xs) ++ [a]).headD 0 = x := rfl
      rw [htail, hhead, List.foldl_append]
      have hlen : ((x :: xs) ++ [a]).length - 1 = xs.length + 1 := by simp
      rw [hlen]
      show (fun ema price => price * k + ema * (1 - k)) (xs.foldl _ x) a =
        emaRecurrence ((x :: xs) ++ [a]) k (xs.length + 1)
      have hstep : emaRecurrence ((x :: xs) ++ [a]) k (xs.length + 1) =
          ((x :: xs) ++ [a]).getD (xs.length + 1) 0 * k +
            emaRecurrence ((x :: xs) ++ [a]) k xs.length * (1 - k) := rfl
      have hgetD : ((x :: xs) ++ [a]).getD (xs.length + 1) 0 = a := by
        rw [List.getD_append_right (x :: xs) [a] 0 (xs.length + 1) (by simp)]
        simp
      have hprev : emaRecurrence ((x :: xs) ++ [a]) k xs.length =
          emaRecurrence (x :: xs) k xs.length :=
        emaRecurrence_append (x :: xs) a k xs.length (by simp)
      have hih : xs.foldl (fun ema price => price * k + ema * (1 - k)) x =
          emaRecurrence (x :: xs) k xs.length := by
        have := ih
        simpa using this
      rw [hstep, hgetD, hprev, ← hih]

/-- C7: for a series at least as long as the period, `calculateEMA` returns
exactly the left-to-right recurrence `ema_i = price_i * k + ema_(i-1) * (1-k)`
seeded at the first sample with `k = 2/(period+1)`, evaluated at the last
index of the whole series; for a shorter series it returns the unavailable
marker. -/
theorem ema_full_history_recurrence (prices : List ℝ) (period : ℕ) :
    (prices.length < period → calculateEMA prices period = none) ∧
    (period ≤ prices.length →
      calculateEMA prices period =
        some (emaRecurrence prices (2 / ((period : ℝ) + 1)) (prices.length - 1))) := by
  constructor
  · intro h
    unfold calculateEMA
    rw [if_pos h]
  · intro h
    unfold calculateEMA
    rw [if_neg (by omega)]
    exact congrArg some (ema_foldl_eq_recurrence (2 / ((period : ℝ) + 1)) prices)

/-- Witness for C7: a length-2 series with period 2, and a length-1 series
with period 2 for the unavailable case. -/
theorem ema_full_history_recurrence_witness :
    calculateEMA [1, 2] 2 = some (emaRecurrence [1, 2] (2 / ((2 : ℝ) + 1)) 1) ∧
    calculateEMA [1] 2 = none := by
  constructor
  · exact (ema_full_history_recurrence [1, 2] 2).2 (by simp)
  · exact (ema_full_history_recurrence [1] 2).1 (by simp)

/-! ### RSI range and extremes -/

lemma rsiGainsLosses_nonneg (prices : List ℝ) (n : ℕ) :
    0 ≤ (rsiGainsLosses prices n).1 ∧ 0 ≤ (rsiGainsLosses prices n).2 := by
  induction n with
  | zero => exact ⟨le_refl 0, le_refl 0⟩
  | succ m ih =>
    show 0 ≤ (let prev := rsiGainsLosses prices m
        let change := prices.getD (m + 1) 0 - prices.getD m 0
        if 0 ≤ change then (prev.1 + change, prev.2) else (prev.1, prev.2 - change)).1 ∧
      0 ≤ (let prev := rsiGainsLosses prices m
        let change := prices.getD (m + 1) 0 - prices.getD m 0
        if 0 ≤ change then (prev.1 + change, prev.2) else (prev.1, prev.2 - change)).2
    by_cases hc : 0 ≤ prices.getD (m + 1) 0 - prices.getD m 0
    · simp only [if_pos hc]
      exact ⟨by linarith [ih.1], ih.2⟩
    · simp only [if_neg hc]
      exact ⟨ih.1, by linarith [ih.2]⟩

lemma rsiGainsLosses_of_increasing (prices : List ℝ) (n : ℕ)
    (h : ∀ m, m < n → prices.getD m 0 < prices.getD (m + 1) 0) :
    (rsiGainsLosses prices n).2 = 0 := by
  induction n with
  | zero => rfl
  | succ m ih =>
    have hc : 0 ≤ prices.getD (m + 1) 0 - prices.getD m 0 := by
      have := h m (by omega)
      linarith
    show (let prev := rsiGainsLosses prices m
        let change := prices.getD (m + 1) 0 - prices.getD m 0
        if 0 ≤ change then (prev.1 + change, prev.2) else (prev.1, prev.2 - change)).2 = 0
    simp only [if_pos hc]
    exact ih (fun i hi => h i (by omega))

lemma rsiGainsLosses_of_decreasing (prices : List ℝ) (n : ℕ) (hn : 1 ≤ n)
    (h : ∀ m, m < n → prices.getD (m + 1) 0 < prices.getD m 0) :
    (rsiGainsLosses prices n).1 = 0 ∧ 0 < (rsiGainsLosses prices n).2 := by
  induction n with
  | zero => omega
  | succ m ih =>
    have hc : ¬0 ≤ prices.getD (m + 1) 0 - prices.getD m 0 := by
      have := h m (by omega)
      linarith
    show ((let prev := rsiGainsLosses prices m
        let change := prices.getD (m + 1) 0 - prices.getD m 0
        if 0 ≤ change then (prev.1 + change, prev.2) else (prev.1, prev.2 - change)).1 = 0 ∧
      0 < (let prev := rsiGainsLosses prices m
        let change := prices.getD (m + 1) 0 - prices.getD m 0
        if 0 ≤ change then (prev.1 + change, prev.2) else (prev.1, prev.2 - change)).2)
    simp only [if_neg hc]
    rcases Nat.eq_zero_or_pos m with hm | hm
    · subst hm
      refine ⟨rfl, ?_⟩
      show 0 < (0 : ℝ) - (prices.getD 1 0 - prices.getD 0 0)
      have := h 0 (by omega)
      linarith
    · have := ih (by omega) (fun i hi => h i (by omega))
      refine ⟨this.1, ?_⟩
      have hneg : prices.getD (m + 1) 0 - prices.getD m 0 < 0 := by
        have := h m (by omega)
        linarith
      linarith [this.2]

lemma chain'_lt_getD (prices : List ℝ) (h : List.Chain' (· < ·) prices) :
    ∀ m, m + 1 < prices.length → prices.getD m 0 < prices.getD (m + 1) 0 := by
  intro m hm
  have hget := List.chain'_iff_get.1 h m (by omega)
  rwa [List.getD_eq_getElem prices 0 (by omega : m < prices.length),
    List.getD_eq_getElem prices 0 (by omega : m + 1 < prices.length)]

lemma chain'_gt_getD (prices : List ℝ) (h : List.Chain' (· > ·) prices) :
    ∀ m, m + 1 < prices.length → prices.getD (m + 1) 0 < prices.getD m 0 := by
  intro m hm
  have hget := List.chain'_iff_get.1 h m (by omega)
  rwa [List.getD_eq_getElem prices 0 (by omega : m < prices.length),
    List.getD_eq_getElem prices 0 (by omega : m + 1 < prices.length)]

lemma calculateRSI_eval (prices : List ℝ) (period : ℕ) (hlen : ¬prices.length < period + 1) :
    calculateRSI prices period =
      (if (rsiGainsLosses prices period).2 / (period : ℝ) = 0 then some 100
        else some (100 - 100 /
          (1 + (rsiGainsLosses prices period).1 / (period : ℝ) /
            ((rsiGainsLosses prices period).2 / (period : ℝ))))) := by
  unfold calculateRSI
  rw [if_neg hlen]

/-- C8: whenever the series is long enough the RSI is defined and lies in
`[0, 100]`; with the default period 14, a strictly decreasing series of
length at least 15 gives RSI 0 and a strictly increasing one gives RSI 100
(the zero-average-loss branch). -/
theorem rsi_range_extremes (prices : List ℝ) (period : ℕ) :
    (period + 1 ≤ prices.length →
      ∃ r : ℝ, calculateRSI prices period = some r ∧ 0 ≤ r ∧ r ≤ 100) ∧
    (15 ≤ prices.length → List.Chain' (· > ·) prices → calculateRSI prices 14 = some 0) ∧
    (15 ≤ prices.length → List.Chain' (· < ·) prices → calculateRSI prices 14 = some 100) := by
  refine ⟨?_, ?_, ?_⟩
  · intro hlen
    rw [calculateRSI_eval prices period (by omega)]
    set g := (rsiGainsLosses prices period).1 with hg
    set l := (rsiGainsLosses prices period).2 with hl
    have hnn := rsiGainsLosses_nonneg prices period
    by_cases h0 : l / (period : ℝ) = 0
    · rw [if_pos h0]
      exact ⟨100, rfl, by norm_num, by norm_num⟩
    · rw [if_neg h0]
      refine ⟨_, rfl, ?_, ?_⟩
      · have hp : (0 : ℝ) < (period : ℝ) := by
          rcases Nat.eq_zero_or_pos period with hz | hpos
          · exfalso
            apply h0
            rw [hz]
            norm_num
          · exact_mod_cast hpos
        have hlpos : 0 < l / (period : ℝ) :=
          lt_of_le_of_ne (div_nonneg hnn.2 (le_of_lt hp)) (Ne.symm h0)
        have hgn : 0 ≤ g / (period : ℝ) := div_nonneg hnn.1 (le_of_lt hp)
        have hrs : 0 ≤ g / (period : ℝ) / (l / (period : ℝ)) :=
          div_nonneg hgn (le_of_lt hlpos)
        have hb : 100 / (1 + g / (period : ℝ) / (l / (period : ℝ))) ≤ 100 :=
          div_le_self (by norm_num) (by linarith)
        linarith
      · have hp : (0 : ℝ) < (period : ℝ) := by
          rcases Nat.eq_zero_or_pos period with hz | hpos
          · exfalso
            apply h0
            rw [hz]
            norm_num
          · exact_mod_cast hpos
        have hlpos : 0 < l / (period : ℝ) :=
          lt_of_le_of_ne (div_nonneg hnn.2 (le_of_lt hp)) (Ne.symm h0)
        have hgn : 0 ≤ g / (period : ℝ) := div_nonneg hnn.1 (le_of_lt hp)
        have hrs : 0 ≤ g / (period : ℝ) / (l / (period : ℝ)) :=
          div_nonneg hgn (le_of_lt hlpos)
        have hpos : 0 < 100 / (1 + g / (period : ℝ) / (l / (period : ℝ))) := by
          apply div_pos (by norm_num)
          linarith
        linarith
  · intro hlen hmono
    rw [calculateRSI_eval prices 14 (by omega)]
    have hd := rsiGainsLosses_of_decreasing prices 14 (by omega)
      (fun m hm => chain'_gt_getD prices hmono m (by omega))
    have hlpos : 0 < (rsiGainsLosses prices 14).2 / ((14 : ℕ) : ℝ) := by
      apply div_pos hd.2
      norm_num
    rw [if_neg (by linarith)]
    rw [hd.1]
    norm_num
  · intro hlen hmono
    rw [calculateRSI_eval prices 14 (by omega)]
    have hi := rsiGainsLosses_of_increasing prices 14
      (fun m hm => chain'_lt_getD prices hmono m (by omega))
    rw [hi]
    norm_num

/-- Witness for C8: the strictly decreasing and strictly increasing series of
length 15 evaluated through the theorem. -/
theorem rsi_range_extremes_witness :
    calculateRSI [15, 14, 13, 12, 11, 10, 9, 8, 7, 6, 5, 4, 3, 2, 1] 14 = some 0 ∧
    calculateRSI [1, 2, 3, 4, 5, 6, 7, 8, 9, 10, 11, 12, 13, 14, 15] 14 = some 100 ∧
    (∃ r : ℝ, calculateRSI [15, 14, 13, 12, 11, 10, 9, 8, 7, 6, 5, 4, 3, 2, 1] 14 = some r ∧
      0 ≤ r ∧ r ≤ 100) := by
  refine ⟨?_, ?_, ?_⟩
  · exact (rsi_range_extremes [15, 14, 13, 12, 11, 10, 9, 8, 7, 6, 5, 4, 3, 2, 1] 14).2.1
      (by simp) (by norm_num [List.chain'_cons])
  · exact (rsi_range_extremes [1, 2, 3, 4, 5, 6, 7, 8, 9, 10, 11, 12, 13, 14, 15] 14).2.2
      (by simp) (by norm_num [List.chain'_cons])
  · exact (rsi_range_extremes [15, 14, 13, 12, 11, 10, 9, 8, 7, 6, 5, 4, 3, 2, 1] 14).1
      (by simp)

/-! ### Swing detection -/

lemma swingCandidate_index (prices : List ℝ) (w i : ℕ) (s : Swing)
    (h : swingCandidate prices w i = some s) : s.index = i := by
  simp only [swingCandidate] at h
  split_ifs at h
  · cases Option.some.inj h
    rfl
  · cases Option.some.inj h
    rfl

lemma mem_findSwings (prices : List ℝ) (w : ℕ) (s : Swing) (h : s ∈ findSwings prices w) :
    s.index ∈ List.range' w (prices.length - w - w) ∧
      swingCandidate prices w s.index = some s := by
  obtain ⟨i, hi, hf⟩ := List.mem_filterMap.1 h
  have hidx := swingCandidate_index prices w i s hf
  rw [hidx]
  exact ⟨hi, hf⟩

lemma findSwings_unique_at_index (prices : List ℝ) (w : ℕ) (s₁ s₂ : Swing)
    (h₁ : s₁ ∈ findSwings prices w) (h₂ : s₂ ∈ findSwings prices w)
    (h : s₁.index = s₂.index) : s₁ = s₂ := by
  have m₁ := (mem_findSwings prices w s₁ h₁).2
  have m₂ := (mem_findSwings prices w s₂ h₂).2
  rw [h] at m₁
  exact Option.some.inj (m₁.symm.trans m₂)

lemma swingCandidate_of_tie (prices : List ℝ) (w i j : ℕ)
    (hj₁ : i - w ≤ j) (hj₂ : j ≤ i + w) (hj₃ : j ≠ i)
    (htie : prices.getD j 0 = prices.getD i 0) :
    swingCandidate prices w i = none := by
  unfold swingCandidate
  rw [if_neg, if_neg]
  · intro hall
    have := hall j hj₁ hj₂ hj₃
    rw [htie] at this
    exact lt_irrefl _ this
  · intro hall
    have := hall j hj₁ hj₂ hj₃
    rw [htie] at this
    exact lt_irrefl _ this

lemma swingCandidate_of_monotone (prices : List ℝ) (w i : ℕ) (hw : 1 ≤ w)
    (hlo : w ≤ i) (hhi : i + w < prices.length)
    (hmono : List.Chain' (· < ·) prices ∨ List.Chain' (· > ·) prices) :
    swingCandidate prices w i = none := by
  unfold swingCandidate
  rcases hmono with hinc | hdec
  · rw [if_neg, if_neg]
    · intro hall
      have hlt := hall (i - 1) (by omega) (by omega) (by omega)
      have hstep := chain'_lt_getD prices hinc (i - 1) (by omega)
      rw [show i - 1 + 1 = i by omega] at hstep
      exact absurd hstep (not_lt.2 (le_of_lt hlt))
    · intro hall
      have hlt := hall (i + 1) (by omega) (by omega) (by omega)
      have hstep := chain'_lt_getD prices hinc i (by omega)
      exact absurd hstep (not_lt.2 (le_of_lt hlt))
  · rw [if_neg, if_neg]
    · intro hall
      have hlt := hall (i + 1) (by omega) (by omega) (by omega)
      have hstep := chain'_gt_getD prices hdec i (by omega)
      exact absurd hstep (not_lt.2 (le_of_lt hlt))
    · intro hall
      have hlt := hall (i - 1) (by omega) (by omega) (by omega)
      have hstep := chain'_gt_getD prices hdec (i - 1) (by omega)
      rw [show i - 1 + 1 = i by omega] at hstep
      exact absurd hstep (not_lt.2 (le_of_lt hlt))

/-- C9 counterexample: with `windowSize = 0` the symmetric window is empty, so
every scanned index of a strictly increasing series is vacuously a high swing;
the length-2 strictly increasing series `[0, 1]` has length greater than
`2 * 0 + 1` yet `findSwings` returns a nonempty list. -/
theorem findSwings_window_zero_counterexample :
    2 * 0 + 1 < ([0, 1] : List ℝ).length ∧ List.Chain' (· < ·) ([0, 1] : List ℝ) ∧
      findSwings ([0, 1] : List ℝ) 0 ≠ [] := by
  refine ⟨by simp, by norm_num [List.chain'_cons], ?_⟩
  intro hnil
  have h0 : swingCandidate ([0, 1] : List ℝ) 0 0 =
      some (Swing.mk SwingType.high 0 (([0, 1] : List ℝ).getD 0 0)) := by
    unfold swingCandidate
    rw [if_pos]
    intro j _ hj₂ hj₃
    exact absurd (Nat.le_zero.1 (by omega : j ≤ 0)) hj₃
  have hrange : (0 : ℕ) ∈ List.range' 0 (([0, 1] : List ℝ).length - 0 - 0) := by
    simp
  have hmem : Swing.mk SwingType.high 0 (([0, 1] : List ℝ).getD 0 0) ∈
      findSwings ([0, 1] : List ℝ) 0 :=
    List.mem_filterMap.2 ⟨0, hrange, h0⟩
  rw [hnil] at hmem
  exact List.not_mem_nil _ hmem

/-- C9 (amended): `findSwings` never marks one index as both a high and a low
swing — an index with a tied neighbour inside its symmetric window is omitted
altogether — and for every positive window size, a strictly monotonic series
of length greater than `2 * windowSize + 1` produces no swings. -/
theorem findSwings_no_dual_and_monotone_empty (prices : List ℝ) (windowSize : ℕ) :
    (∀ s₁ s₂ : Swing, s₁ ∈ findSwings prices windowSize → s₂ ∈ findSwings prices windowSize →
      s₁.index = s₂.index → ¬(s₁.type = SwingType.high ∧ s₂.type = SwingType.low)) ∧
    (∀ i j : ℕ, i - windowSize ≤ j → j ≤ i + windowSize → j ≠ i →
      prices.getD j 0 = prices.getD i 0 →
        ∀ s : Swing, s ∈ findSwings prices windowSize → s.index ≠ i) ∧
    (1 ≤ windowSize → 2 * windowSize + 1 < prices.length →
      (List.Chain' (· < ·) prices ∨ List.Chain' (· > ·) prices) →
        findSwings prices windowSize = []) := by
  refine ⟨?_, ?_, ?_⟩
  · intro s₁ s₂ h₁ h₂ hidx hcon
    have heq := findSwings_unique_at_index prices windowSize s₁ s₂ h₁ h₂ hidx
    rw [heq, hcon.2] at hcon
    exact absurd hcon.1 (by decide)
  · intro i j hj₁ hj₂ hj₃ htie s hs hsi
    have hcand := (mem_findSwings prices windowSize s hs).2
    rw [hsi] at hcand
    rw [swingCandidate_of_tie prices windowSize i j hj₁ hj₂ hj₃ htie] at hcand
    exact Option.noConfusion hcand
  · intro hw hlen hmono
    rw [findSwings, List.filterMap_eq_nil_iff]
    intro i hi
    rw [List.mem_range'_1] at hi
    exact swingCandidate_of_monotone prices windowSize i hw hi.1 (by omega) hmono

/-- Witness for C9: the amended statement applied at concrete inputs — a
strictly increasing four-sample series with window 1 has no swings, and a tie
inside the window of the two-sample constant series excludes its index. -/
theorem findSwings_no_dual_and_monotone_empty_witness :
    findSwings ([1, 2, 3, 4] : List ℝ) 1 = [] ∧
    (∀ s : Swing, s ∈ findSwings ([3, 3] : List ℝ) 5 → s.index ≠ 0) := by
  constructor
  · exact (findSwings_no_dual_and_monotone_empty ([1, 2, 3, 4] : List ℝ) 1).2.2
      (by omega) (by simp) (Or.inl (by norm_num [List.chain'_cons]))
  · exact (findSwings_no_dual_and_monotone_empty ([3, 3] : List ℝ) 5).2.1 0 1
      (by omega) (by omega) (by omega) (by norm_num)

/-! ### Bollinger bands -/

lemma calculateBollingerBands_eval (prices : List ℝ) (period : ℕ) (stdDev : ℝ)
    (h : ¬prices.length < period) :
    calculateBollingerBands prices period stdDev =
      some (BollingerBands.mk
        ((calculateMA prices period).getD 0 + stdDev * Real.sqrt
          (((prices.drop (prices.length - period)).foldl
              (fun acc price => acc + (price - (calculateMA prices period).getD 0) ^ 2) 0) /
            (period : ℝ)))
        ((calculateMA prices period).getD 0)
        ((calculateMA prices period).getD 0 - stdDev * Real.sqrt
          (((prices.drop (prices.length - period)).foldl
              (fun acc price => acc + (price - (calculateMA prices period).getD 0) ^ 2) 0) /
            (period : ℝ)))) := by
  unfold calculateBollingerBands
  rw [if_neg h]

lemma foldl_add_replicate (n : ℕ) (c : ℝ) :
    ∀ a : ℝ, List.foldl (fun acc price => acc + price) a (List.replicate n c) = a + n * c := by
  induction n with
  | zero =>
    intro a
    simp
  | succ m ih =>
    intro a
    rw [List.replicate_succ, List.foldl_cons, ih (a + c)]
    push_cast
    ring

lemma foldl_sq_replicate (n : ℕ) (c : ℝ) :
    ∀ a : ℝ, List.foldl (fun acc price => acc + (price - c) ^ 2) a (List.replicate n c) = a := by
  induction n with
  | zero =>
    intro a
    simp
  | succ m ih =>
    intro a
    rw [List.replicate_succ, List.foldl_cons]
    have : a + (c - c) ^ 2 = a := by ring
    rw [this, ih a]

lemma calculateMA_replicate (n period : ℕ) (c : ℝ) (h1 : 1 ≤ period) (h2 : period ≤ n) :
    calculateMA (List.replicate n c) period = some c := by
  unfold calculateMA
  rw [if_neg (by simp; omega)]
  rw [List.length_replicate, List.drop_replicate, foldl_add_replicate (n - (n - period)) c 0]
  rw [show n - (n - period) = period by omega]
  rw [zero_add]
  rw [mul_div_cancel_left₀ c (show ((period : ℝ)) ≠ 0 by exact_mod_cast (by omega : period ≠ 0))]

/-- C10: whenever the series is long enough, the Bollinger bands with the
default multiplier 2 satisfy `lower ≤ middle ≤ upper`, and on a constant
series all three bands equal the constant. -/
theorem bollinger_ordered_and_constant (period : ℕ) :
    (∀ prices : List ℝ, period ≤ prices.length →
      ∃ b : BollingerBands, calculateBollingerBands prices period 2 = some b ∧
        b.lower ≤ b.middle ∧ b.middle ≤ b.upper) ∧
    (∀ (c : ℝ) (n : ℕ), 1 ≤ period → period ≤ n →
      calculateBollingerBands (List.replicate n c) period 2 =
        some { upper := c, middle := c, lower := c }) := by
  constructor
  · intro prices hlen
    have hs := Real.sqrt_nonneg
      (((prices.drop (prices.length - period)).foldl
          (fun acc price => acc + (price - (calculateMA prices period).getD 0) ^ 2) 0) /
        (period : ℝ))
    rw [calculateBollingerBands_eval prices period 2 (by omega)]
    refine ⟨_, rfl, ?_, ?_⟩
    · show (calculateMA prices period).getD 0 - 2 * Real.sqrt
          (((prices.drop (prices.length - period)).foldl
              (fun acc price => acc + (price - (calculateMA prices period).getD 0) ^ 2) 0) /
            (period : ℝ)) ≤ (calculateMA prices period).getD 0
      linarith
    · show (calculateMA prices period).getD 0 ≤ (calculateMA prices period).getD 0 + 2 * Real.sqrt
          (((prices.drop (prices.length - period)).foldl
              (fun acc price => acc + (price - (calculateMA prices period).getD 0) ^ 2) 0) /
            (period : ℝ))
      linarith
  · intro c n h1 h2
    rw [calculateBollingerBands_eval (List.replicate n c) period 2 (by simp; omega)]
    rw [calculateMA_replicate n period c h1 h2]
    have hgd : (some c).getD (0 : ℝ) = c := rfl
    rw [hgd, List.length_replicate, List.drop_replicate,
      foldl_sq_replicate (n - (n - period)) c 0, zero_div, Real.sqrt_zero]
    have : c + 2 * 0 = c := by ring
    rw [this]
    have h0 : c - 2 * 0 = c := by ring
    rw [h0]

/-- Witness for C10 at the spec scenario: one hundred fives with the default
period 20. -/
theorem bollinger_ordered_and_constant_witness :
    calculateBollingerBands (List.replicate 100 (5 : ℝ)) 20 2 =
      some { upper := 5, middle := 5, lower := 5 } ∧
    (∃ b : BollingerBands,
      calculateBollingerBands (List.replicate 100 (5 : ℝ)) 20 2 = some b ∧
        b.lower ≤ b.middle ∧ b.middle ≤ b.upper) := by
  constructor
  · exact (bollinger_ordered_and_constant 20).2 5 100 (by omega) (by omega)
  · exact (bollinger_ordered_and_constant 20).1 (List.replicate 100 (5 : ℝ)) (by simp)

end AnaBot
